import Mathlib

/-!
Verification of the GenomeVedic FASTA-to-particles core
(`backend/scripts/fasta_to_particles.py`).

The Python floats of the source are modelled by real numbers (exact
arithmetic); Python's `%` on nonnegative-divisor floats is `Int.fract`
scaled appropriately, `int()` is truncation toward zero, and `round(x, n)`
is rounding to `n` decimal digits (Python uses banker's rounding at exact
half-way ties; no statement below depends on a tie).  Python exceptions
(`ValueError` for an empty FASTA, `ZeroDivisionError` for a zero LOD
target) are modelled with `Except` / `Option`.  Diagnostic printing and
file I/O (`read_fasta`, `json.dumps`) are outside the core and not
modelled; the pipeline takes the parsed, ordered `(name, sequence)` list
directly.
-/

namespace GenomeVedic

/-- Source constant `GOLDEN_RATIO = (1 + math.sqrt(5)) / 2`. -/
noncomputable def GOLDEN_RATIO : ℝ := (1 + Real.sqrt 5) / 2

/-- Source constant `GOLDEN_ANGLE = 2 * math.pi / GOLDEN_RATIO ** 2` (source parenthesizes the power). -/
noncomputable def GOLDEN_ANGLE : ℝ := 2 * Real.pi / GOLDEN_RATIO ^ 2

/-- Source constant `VOXEL_SIZE = 0.01`. -/
noncomputable def VOXEL_SIZE : ℝ := 0.01

/-- Source `digital_root(n)`: `9` if `n == 0`, else `1 + ((n - 1) % 9)`. -/
def digital_root (n : ℕ) : ℕ :=
  if n = 0 then 9 else 1 + (n - 1) % 9

/-- Source `BASE_MAP.get(k, 4)`: the dict `{'A':0,'C':1,'G':2,'T':3,'N':4}`
with default `4` for any key not present. -/
def BASE_MAP_get (k : Char) : ℕ :=
  if k = 'A' then 0
  else if k = 'C' then 1
  else if k = 'G' then 2
  else if k = 'T' then 3
  else if k = 'N' then 4
  else 4

/-- Source `BASE_COLORS.get(k, [0.5, 0.5, 0.5])`. -/
noncomputable def BASE_COLORS_get (k : Char) : List ℝ :=
  if k = 'A' then [1, 0, 0]
  else if k = 'C' then [0, 1, 0]
  else if k = 'G' then [0, 0, 1]
  else if k = 'T' then [1, 1, 0]
  else if k = 'N' then [0.5, 0.5, 0.5]
  else [0.5, 0.5, 0.5]

/-- Source `sequence_to_3d(sequence, position)`: golden-spiral coordinates
for one base.  Python's `v % 1.0` (nonnegative-divisor float modulo) is the
fractional part `Int.fract v` in the real model. -/
noncomputable def sequence_to_3d (sequence : Char) (position : ℕ) : ℝ × ℝ × ℝ :=
  let root := digital_root position
  let theta := (position : ℝ) * GOLDEN_ANGLE
  let radius := Real.sqrt (position : ℝ) / 10000
  let base_offset := (BASE_MAP_get sequence.toUpper : ℝ) * 0.02
  let x := Int.fract (radius * Real.cos theta + base_offset)
  let y := Int.fract (radius * Real.sin theta + base_offset)
  let z := Int.fract ((root : ℝ) / 10 + (position : ℝ) / 100000000)
  (x, y, z)

/-- Python `int(r)` on a float: truncation toward zero. -/
noncomputable def pyTrunc (r : ℝ) : ℤ :=
  if 0 ≤ r then ⌊r⌋ else -⌊-r⌋

/-- Source `calculate_voxel_id(x, y, z)`:
`int(x/VOXEL_SIZE) + int(y/VOXEL_SIZE)*100 + int(z/VOXEL_SIZE)*10000`. -/
noncomputable def calculate_voxel_id (x y z : ℝ) : ℤ :=
  let voxel_x := pyTrunc (x / VOXEL_SIZE)
  let voxel_y := pyTrunc (y / VOXEL_SIZE)
  let voxel_z := pyTrunc (z / VOXEL_SIZE)
  voxel_x + voxel_y * 100 + voxel_z * 10000

/-- Source `williams_batch_size(n)`: `1` for `n <= 0`, else
`max(1, int(math.sqrt(n) * math.log2(n)))` (the product is nonnegative for
`n >= 1`, so `int` is the floor). -/
noncomputable def williams_batch_size (n : ℤ) : ℤ :=
  if n ≤ 0 then 1 else max 1 ⌊Real.sqrt (n : ℝ) * Real.logb 2 (n : ℝ)⌋

/-- Python `round(x, ndigits)` in the real model: round to the nearest
multiple of `10 ^ (-ndigits)` (ties only differ from Python's banker's
rounding at exact half-way points, which no claim here exercises). -/
noncomputable def roundTo (ndigits : ℕ) (x : ℝ) : ℝ :=
  (round (x * 10 ^ ndigits) : ℤ) / 10 ^ ndigits

/-- One tier of source `generate_lod_levels`: for a single `target`,
`list(range(total))` if `target >= total`, else
`[int(i * step) for i in range(target)]` with `step = total / target`
(exact division in the real/rational model; `int` is the floor on the
nonnegative values produced here, and `range` of a negative int is empty).
`none` models the `ZeroDivisionError` Python raises computing
`total / target` when `target == 0` (and `total > target` so the first
branch was not taken). -/
def lodTier (total : ℕ) (target : ℤ) : Option (List ℤ) :=
  if (total : ℤ) ≤ target then some ((List.range total).map fun i : ℕ => (i : ℤ))
  else if target = 0 then none
  else some ((List.range target.toNat).map fun i : ℕ =>
    ⌊(i : ℚ) * ((total : ℚ) / (target : ℚ))⌋)

/-- Claim C1: for every integer position ≥ 0 and every symbol (including
unrecognized ones), each of the three coordinate components returned by
`sequence_to_3d` lies in the half-open interval `[0, 1)`. -/
theorem C1_position_mapper_unit_range (c : Char) (position : ℕ) :
    (sequence_to_3d c position).1 ∈ Set.Ico (0 : ℝ) 1 ∧
    (sequence_to_3d c position).2.1 ∈ Set.Ico (0 : ℝ) 1 ∧
    (sequence_to_3d c position).2.2 ∈ Set.Ico (0 : ℝ) 1 := by
  simp only [sequence_to_3d, Set.mem_Ico]
  exact ⟨⟨Int.fract_nonneg _, Int.fract_lt_one _⟩,
    ⟨Int.fract_nonneg _, Int.fract_lt_one _⟩,
    ⟨Int.fract_nonneg _, Int.fract_lt_one _⟩⟩

/-- Claim C2 (as stated) is false at `total = 5`, `target = 0`: the claim
requires a tier index list with exactly `0` elements, but the code raises
`ZeroDivisionError` computing `step = total / target` and produces no list
at all. -/
theorem C2_counterexample_zero_target :
    lodTier 5 0 = none ∧
    ¬ ∃ l : List ℤ, lodTier 5 0 = some l ∧ (l.length : ℤ) = 0 ∧
      l.Pairwise (· < ·) ∧ ∀ x ∈ l, x < 5 := by
  refine ⟨rfl, ?_⟩
  rintro ⟨l, hl, -⟩
  simp [lodTier] at hl

/-- Claim C2 (amended to positive targets): for every total `T ≥ 0` and
every positive target `t`, if `t ≥ T` the tier index list is exactly
`[0, 1, ..., T-1]`; otherwise the tier index list has exactly `t`
elements, is strictly ascending, and every element is `< T`.  (A target
`t = 0` with `T > 0` instead raises `ZeroDivisionError`.) -/
theorem C2_lod_tier_correct (T : ℕ) (t : ℤ) (ht : 0 < t) :
    ((T : ℤ) ≤ t → lodTier T t = some ((List.range T).map fun i : ℕ => (i : ℤ))) ∧
    (t < (T : ℤ) → ∃ l, lodTier T t = some l ∧ (l.length : ℤ) = t ∧
      l.Pairwise (· < ·) ∧ ∀ x ∈ l, x < (T : ℤ)) := by
  constructor
  · intro h
    simp [lodTier, h]
  · intro h
    have hT : ¬ ((T : ℤ) ≤ t) := not_le.mpr h
    have ht0 : t ≠ 0 := ht.ne'
    refine ⟨(List.range t.toNat).map fun i : ℕ => ⌊(i : ℚ) * ((T : ℚ) / (t : ℚ))⌋,
      by rw [lodTier, if_neg hT, if_neg ht0], ?_, ?_, ?_⟩
    · simp [Int.toNat_of_nonneg ht.le]
    · rw [List.pairwise_map]
      refine (List.pairwise_lt_range _).imp ?_
      intro i j hij
      have hs1 : 1 < (T : ℚ) / (t : ℚ) := by
        rw [one_lt_div (by exact_mod_cast ht)]
        exact_mod_cast h
      have hs0 : 0 ≤ (T : ℚ) / (t : ℚ) := le_of_lt (lt_trans one_pos hs1)
      have hij' : (i : ℚ) + 1 ≤ (j : ℚ) := by exact_mod_cast hij
      have key : (i : ℚ) * ((T : ℚ) / (t : ℚ)) + 1 ≤
          (j : ℚ) * ((T : ℚ) / (t : ℚ)) := by nlinarith
      calc ⌊(i : ℚ) * ((T : ℚ) / (t : ℚ))⌋
          < ⌊(i : ℚ) * ((T : ℚ) / (t : ℚ))⌋ + 1 := lt_add_one _
        _ = ⌊(i : ℚ) * ((T : ℚ) / (t : ℚ)) + 1⌋ := (Int.floor_add_one _).symm
        _ ≤ ⌊(j : ℚ) * ((T : ℚ) / (t : ℚ))⌋ := Int.floor_le_floor key
    · intro x hx
      rw [List.mem_map] at hx
      obtain ⟨i, hi, rfl⟩ := hx
      rw [List.mem_range] at hi
      rw [Int.floor_lt]
      have hiz : (i : ℤ) + 1 ≤ t := by omega
      have hiq : (i : ℚ) + 1 ≤ (t : ℚ) := by exact_mod_cast hiz
      have htq : (0 : ℚ) < (t : ℚ) := by exact_mod_cast ht
      have hts : (t : ℚ) * ((T : ℚ) / (t : ℚ)) = (T : ℚ) := by
        field_simp
      have hs1 : 1 < (T : ℚ) / (t : ℚ) := by
        rw [one_lt_div htq]
        exact_mod_cast h
      push_cast
      nlinarith

/-- Witness for claim C2's amended theorem at `T = 10`, `t = 3`. -/
theorem C2_lod_tier_correct_witness :
    (0 : ℤ) < 3 ∧ (3 : ℤ) < ((10 : ℕ) : ℤ) ∧
    ∃ l, lodTier 10 3 = some l ∧ (l.length : ℤ) = 3 ∧
      l.Pairwise (· < ·) ∧ ∀ x ∈ l, x < ((10 : ℕ) : ℤ) :=
  ⟨by norm_num, by norm_num,
    (C2_lod_tier_correct 10 3 (by norm_num)).2 (by norm_num)⟩

set_option exponentiation.threshold 30000 in
/-- Kernel-checked power comparison pinning the lower decimal digits of
`log2(10^6)`. -/
lemma two_pow_le_ten_pow : (2 : ℕ) ^ 19931 ≤ 10 ^ 6000 := by decide

set_option exponentiation.threshold 30000 in
/-- Kernel-checked power comparison pinning the upper decimal digits of
`log2(10^6)`. -/
lemma ten_pow_lt_two_pow : (10 : ℕ) ^ 6000 < 2 ^ 19932 := by decide

/-- Lower bound `19.931 ≤ log2(1000000)`. -/
lemma logb_two_million_lower : (19931 : ℝ) / 1000 ≤ Real.logb 2 1000000 := by
  have h2 : (0 : ℝ) < Real.log 2 := Real.log_pos (by norm_num)
  rw [Real.logb, div_le_div_iff₀ (by norm_num) h2]
  have hpow : (2 : ℝ) ^ (19931 : ℕ) ≤ (1000000 : ℝ) ^ (1000 : ℕ) := by
    have h := two_pow_le_ten_pow
    have h' : ((2 : ℕ) ^ 19931 : ℝ) ≤ ((10 : ℕ) ^ 6000 : ℝ) := by exact_mod_cast h
    calc (2 : ℝ) ^ (19931 : ℕ) ≤ (10 : ℝ) ^ (6000 : ℕ) := by push_cast at h'; exact h'
      _ = (1000000 : ℝ) ^ (1000 : ℕ) := by
          rw [show (1000000 : ℝ) = 10 ^ (6 : ℕ) by norm_num, ← pow_mul]
  have hlog := (Real.log_le_log_iff (by positivity) (by positivity)).mpr hpow
  rw [Real.log_pow, Real.log_pow] at hlog
  push_cast at hlog
  linarith


/-- Upper bound `log2(1000000) < 19.932`. -/
lemma logb_two_million_upper : Real.logb 2 1000000 < (19932 : ℝ) / 1000 := by
  have h2 : (0 : ℝ) < Real.log 2 := Real.log_pos (by norm_num)
  rw [Real.logb, div_lt_div_iff₀ h2 (by norm_num)]
  have hpow : (1000000 : ℝ) ^ (1000 : ℕ) < (2 : ℝ) ^ (19932 : ℕ) := by
    have h := ten_pow_lt_two_pow
    have h' : ((10 : ℕ) ^ 6000 : ℝ) < ((2 : ℕ) ^ 19932 : ℝ) := by exact_mod_cast h
    calc (1000000 : ℝ) ^ (1000 : ℕ) = (10 : ℝ) ^ (6000 : ℕ) := by
          rw [show (1000000 : ℝ) = 10 ^ (6 : ℕ) by norm_num, ← pow_mul]
      _ < (2 : ℝ) ^ (19932 : ℕ) := by push_cast at h'; exact h'
  have hlog := (Real.log_lt_log_iff (by positivity) (by positivity)).mpr hpow
  rw [Real.log_pow, Real.log_pow] at hlog
  push_cast at hlog
  linarith

/-- Claim C7: the batch sizer returns `1` for every `n ≤ 0` and
`max(1, floor(sqrt(n) * log2(n)))` for every `n ≥ 1`; in particular
`williams_batch_size 1 = 1` and `williams_batch_size 1000000 = 19931`. -/
theorem C7_batch_size_formula :
    (∀ n : ℤ, n ≤ 0 → williams_batch_size n = 1) ∧
    (∀ n : ℤ, 1 ≤ n → williams_batch_size n =
      max 1 ⌊Real.sqrt (n : ℝ) * Real.logb 2 (n : ℝ)⌋) ∧
    williams_batch_size 1 = 1 ∧
    williams_batch_size 1000000 = 19931 := by
  refine ⟨?_, ?_, ?_, ?_⟩
  · intro n h
    rw [williams_batch_size, if_pos h]
  · intro n h
    rw [williams_batch_size, if_neg (by omega)]
  · rw [williams_batch_size, if_neg (by norm_num)]
    norm_num [Real.sqrt_one, Real.logb_one]
  · rw [williams_batch_size, if_neg (by norm_num)]
    have hc : (((1000000 : ℤ) : ℝ)) = 1000000 := by norm_num
    rw [hc]
    have hsqrt : Real.sqrt 1000000 = 1000 := by
      rw [show (1000000 : ℝ) = 1000 ^ 2 by norm_num, Real.sqrt_sq (by norm_num)]
    rw [hsqrt]
    have hfloor : ⌊(1000 : ℝ) * Real.logb 2 1000000⌋ = 19931 := by
      rw [Int.floor_eq_iff]
      constructor
      · have := logb_two_million_lower
        push_cast
        linarith
      · have := logb_two_million_upper
        push_cast
        linarith
    rw [hfloor]
    norm_num

/-- Witness for claim C7's theorem: concrete instantiations of the two
hypothesised conjuncts, at `n = -5` and `n = 2`. -/
theorem C7_batch_size_formula_witness :
    ((-5 : ℤ) ≤ 0 ∧ williams_batch_size (-5) = 1) ∧
    (1 ≤ (2 : ℤ) ∧ williams_batch_size 2 =
      max 1 ⌊Real.sqrt ((2 : ℤ) : ℝ) * Real.logb 2 ((2 : ℤ) : ℝ)⌋) :=
  ⟨⟨by norm_num, C7_batch_size_formula.1 (-5) (by norm_num)⟩,
    ⟨by norm_num, C7_batch_size_formula.2.1 2 (by norm_num)⟩⟩

/-- Claim C8: the batch sizer is monotonically non-decreasing on `n ≥ 1`
and always at least `1`. -/
theorem C8_batch_size_monotone :
    (∀ n : ℤ, 1 ≤ williams_batch_size n) ∧
    (∀ m n : ℤ, 1 ≤ m → m ≤ n →
      williams_batch_size m ≤ williams_batch_size n) := by
  constructor
  · intro n
    rw [williams_batch_size]
    split
    · exact le_refl 1
    · exact le_max_left 1 _
  · intro m n hm hmn
    rw [williams_batch_size, if_neg (by omega), williams_batch_size,
      if_neg (by omega)]
    have hm1 : (1 : ℝ) ≤ (m : ℝ) := by exact_mod_cast hm
    have hmn' : (m : ℝ) ≤ (n : ℝ) := by exact_mod_cast hmn
    refine max_le_max (le_refl 1) (Int.floor_le_floor ?_)
    have hs := Real.sqrt_le_sqrt hmn'
    have hl := Real.logb_le_logb_of_le (by norm_num : (1:ℝ) < 2)
      (by linarith : (0:ℝ) < (m : ℝ)) hmn'
    have hl0 : 0 ≤ Real.logb 2 (m : ℝ) :=
      Real.logb_nonneg (by norm_num) hm1
    have hs0 : 0 ≤ Real.sqrt (n : ℝ) := Real.sqrt_nonneg _
    exact mul_le_mul hs hl hl0 hs0

/-- Witness for claim C8's theorem at `m = 2`, `n = 5`. -/
theorem C8_batch_size_monotone_witness :
    1 ≤ (2 : ℤ) ∧ (2 : ℤ) ≤ 5 ∧
    williams_batch_size 2 ≤ williams_batch_size 5 :=
  ⟨by norm_num, by norm_num,
    C8_batch_size_monotone.2 2 5 (by norm_num) (by norm_num)⟩

/-- For a coordinate in `[0, 1)`, the per-axis voxel bin is in `[0, 99]`,
and `int()` truncation agrees with the floor. -/
lemma pyTrunc_bin_bounds {x : ℝ} (h0 : 0 ≤ x) (h1 : x < 1) :
    pyTrunc (x / VOXEL_SIZE) = ⌊x / VOXEL_SIZE⌋ ∧
    0 ≤ pyTrunc (x / VOXEL_SIZE) ∧ pyTrunc (x / VOXEL_SIZE) ≤ 99 := by
  have hpos : (0 : ℝ) < VOXEL_SIZE := by rw [VOXEL_SIZE]; norm_num
  have hx : 0 ≤ x / VOXEL_SIZE := div_nonneg h0 hpos.le
  have hlt : x / VOXEL_SIZE < 100 := by
    rw [div_lt_iff₀ hpos, VOXEL_SIZE]
    norm_num
    linarith
  rw [pyTrunc, if_pos hx]
  refine ⟨rfl, Int.le_floor.mpr (by exact_mod_cast hx), ?_⟩
  have := Int.floor_lt.mpr (by exact_mod_cast hlt : x / VOXEL_SIZE < ((100 : ℤ) : ℝ))
  omega

/-- Shared bound: for coordinates in `[0, 1)`, `calculate_voxel_id` equals
the floor formula and lies in `[0, 999999]`. -/
lemma calculate_voxel_id_bounds {x y z : ℝ}
    (hx0 : 0 ≤ x) (hx1 : x < 1) (hy0 : 0 ≤ y) (hy1 : y < 1)
    (hz0 : 0 ≤ z) (hz1 : z < 1) :
    calculate_voxel_id x y z =
      ⌊x / VOXEL_SIZE⌋ + ⌊y / VOXEL_SIZE⌋ * 100 + ⌊z / VOXEL_SIZE⌋ * 10000 ∧
    0 ≤ calculate_voxel_id x y z ∧ calculate_voxel_id x y z ≤ 999999 := by
  obtain ⟨hex, hx0', hx99⟩ := pyTrunc_bin_bounds hx0 hx1
  obtain ⟨hey, hy0', hy99⟩ := pyTrunc_bin_bounds hy0 hy1
  obtain ⟨hez, hz0', hz99⟩ := pyTrunc_bin_bounds hz0 hz1
  rw [calculate_voxel_id]
  refine ⟨by rw [hex, hey, hez], by omega, by omega⟩

/-- Claim C6: for all coordinates `x, y, z` each in `[0, 1)`, the voxel id
equals `floor(x/0.01) + 100*floor(y/0.01) + 10000*floor(z/0.01)` (the
source's `int()` truncation agrees with the floor on these nonnegative
inputs) and lies in `[0, 999999]`; `calculate_voxel_id` is a pure function
of `(x, y, z)` by construction. -/
theorem C6_voxel_id_range (x y z : ℝ)
    (hx0 : 0 ≤ x) (hx1 : x < 1) (hy0 : 0 ≤ y) (hy1 : y < 1)
    (hz0 : 0 ≤ z) (hz1 : z < 1) :
    calculate_voxel_id x y z =
      ⌊x / VOXEL_SIZE⌋ + ⌊y / VOXEL_SIZE⌋ * 100 + ⌊z / VOXEL_SIZE⌋ * 10000 ∧
    0 ≤ calculate_voxel_id x y z ∧ calculate_voxel_id x y z ≤ 999999 :=
  calculate_voxel_id_bounds hx0 hx1 hy0 hy1 hz0 hz1

/-- Witness for claim C6's theorem at `(x, y, z) = (1/2, 1/2, 1/2)`. -/
theorem C6_voxel_id_range_witness :
    ((0 : ℝ) ≤ 1/2 ∧ (1/2 : ℝ) < 1) ∧
    0 ≤ calculate_voxel_id (1/2) (1/2) (1/2) ∧
    calculate_voxel_id (1/2) (1/2) (1/2) ≤ 999999 :=
  ⟨⟨by norm_num, by norm_num⟩,
    (C6_voxel_id_range (1/2) (1/2) (1/2) (by norm_num) (by norm_num)
      (by norm_num) (by norm_num) (by norm_num) (by norm_num)).2⟩

/-- One particle record of the output (source: the dict built at each loop
iteration of `fasta_to_particles`). -/
structure Particle where
  x : ℝ
  y : ℝ
  z : ℝ
  base : Char
  pos : ℕ
  voxel : ℤ
  color : List ℝ

/-- The particle built by one iteration of the generation loop: coordinates
from `sequence_to_3d(base, pos)`, stored rounded to 6 decimal places, the
voxel id computed from the unrounded coordinates.  `sequence[pos]` is
modelled by `getD` with an arbitrary default; every pipeline use is
in bounds. -/
noncomputable def particleAt (sequence : List Char) (pos : ℕ) : Particle :=
  let base := sequence.getD pos 'N'
  let c := sequence_to_3d base pos
  { x := roundTo 6 c.1
    y := roundTo 6 c.2.1
    z := roundTo 6 c.2.2
    base := base
    pos := pos
    voxel := calculate_voxel_id c.1 c.2.1 c.2.2
    color := BASE_COLORS_get base }

/-- The voxel id inserted into the spatial hash at position `pos`. -/
noncomputable def voxelAt (sequence : List Char) (pos : ℕ) : ℤ :=
  (particleAt sequence pos).voxel

/-- One iteration of the generation loop: append the particle to the output
list and append `pos` to the `spatial_hash[voxel]` bucket (the
`defaultdict(list)` is modelled as a total function with empty default). -/
noncomputable def genStep (sequence : List Char)
    (acc : List Particle × (ℤ → List ℕ)) (pos : ℕ) :
    List Particle × (ℤ → List ℕ) :=
  (acc.1 ++ [particleAt sequence pos],
   fun k => if k = voxelAt sequence pos then acc.2 k ++ [pos] else acc.2 k)

/-- The particle-generation pass of `fasta_to_particles`:
`for pos in range(seq_length)` building `particles` and `spatial_hash`. -/
noncomputable def genLoop (sequence : List Char) (T : ℕ) :
    List Particle × (ℤ → List ℕ) :=
  (List.range T).foldl (genStep sequence) ([], fun _ => [])

/-- Source `generate_lod_levels(particles, target_counts)`: one tier per
target in list order (the source's dict is keyed by the enumeration
index); `none` models the `ZeroDivisionError` raised by a zero target. -/
def generate_lod_levels (particles : List Particle)
    (target_counts : List ℤ) : Option (List (List ℤ)) :=
  target_counts.mapM (lodTier particles.length)

/-- The particle list accumulated by the fold is the mapped range. -/
lemma genLoop_go_fst (sequence : List Char) (l : List ℕ)
    (acc : List Particle × (ℤ → List ℕ)) :
    (l.foldl (genStep sequence) acc).1 = acc.1 ++ l.map (particleAt sequence) := by
  induction l generalizing acc with
  | nil => simp
  | cons a l ih => simp [List.foldl_cons, ih, genStep, List.append_assoc]

/-- The generation pass emits exactly the particles of positions
`0, ..., T-1` in order. -/
lemma genLoop_fst (sequence : List Char) (T : ℕ) :
    (genLoop sequence T).1 = (List.range T).map (particleAt sequence) := by
  rw [genLoop, genLoop_go_fst]
  simp

/-- Each spatial-hash bucket accumulated by the fold is the filtered
position list, in traversal order. -/
lemma genLoop_go_snd (sequence : List Char) (l : List ℕ)
    (acc : List Particle × (ℤ → List ℕ)) (v : ℤ) :
    (l.foldl (genStep sequence) acc).2 v =
      acc.2 v ++ l.filter (fun p => decide (voxelAt sequence p = v)) := by
  induction l generalizing acc with
  | nil => simp
  | cons a l ih =>
    rw [List.foldl_cons, ih, List.filter_cons]
    by_cases h : voxelAt sequence a = v
    · simp [genStep, h, List.append_assoc]
    · simp [genStep, h, Ne.symm h]

/-- Each bucket of the built spatial hash is the ascending filter of the
position range by voxel id. -/
lemma genLoop_snd (sequence : List Char) (T : ℕ) (v : ℤ) :
    (genLoop sequence T).2 v =
      (List.range T).filter (fun p => decide (voxelAt sequence p = v)) := by
  rw [genLoop, genLoop_go_snd]
  simp

/-- Claim C9: in the spatial-hash index built by the generation pass, the
member list of every bucket equals the left-to-right (append-only) filter
of the ascending position range mapping to that voxel id — its insertion
order — and is therefore strictly ascending. -/
theorem C9_spatial_hash_ascending (sequence : List Char) (T : ℕ) (v : ℤ) :
    (genLoop sequence T).2 v =
      (List.range T).filter (fun p => decide (voxelAt sequence p = v)) ∧
    ((genLoop sequence T).2 v).Pairwise (· < ·) := by
  refine ⟨genLoop_snd sequence T v, ?_⟩
  rw [genLoop_snd]
  exact (List.pairwise_lt_range T).sublist (List.filter_sublist _)

/-- Python slice `s[:k]` for an int bound `k`: `take k` for `k >= 0`,
`take (len + k)` (clamped at `0`) for negative `k`. -/
def pySlice (s : List Char) (k : ℤ) : List Char :=
  if 0 ≤ k then s.take k.toNat else s.take ((s.length : ℤ) + k).toNat

/-- The effective length after `if max_particles: seq_length =
min(seq_length, max_particles)`: Python truthiness treats both `None` and
`0` as absent. -/
def effectiveLength (len : ℤ) (max_particles : Option ℤ) : ℤ :=
  match max_particles with
  | none => len
  | some m => if m = 0 then len else min len m

/-- The truncated sequence after `if max_particles: sequence =
sequence[:seq_length]`. -/
def truncSeq (seq0 : List Char) (max_particles : Option ℤ) : List Char :=
  match max_particles with
  | none => seq0
  | some m =>
    if m = 0 then seq0 else pySlice seq0 (min (seq0.length : ℤ) m)

/-- Source default LOD targets `[5000, 50000, 500000, 5000000]`. -/
def defaultLodTargets : List ℤ := [5000, 50000, 500000, 5000000]

/-- Python `math.degrees`. -/
noncomputable def degrees (r : ℝ) : ℝ := r * 180 / Real.pi

/-- The `metadata` dict of the output. -/
structure RunMetadata where
  sequence_name : String
  length : ℤ
  particles : ℕ
  lod_levels : List ℕ
  voxel_count : ℕ
  voxel_size : ℝ
  williams_batch_size : ℤ
  generation_time : ℝ
  golden_angle_degrees : ℝ
  version : String

/-- The output dict of `fasta_to_particles`. -/
structure PipelineOutput where
  metadata : RunMetadata
  particles : List Particle
  spatial_hash : ℤ → List ℕ
  lod_levels : List (List ℤ)

/-- Source `fasta_to_particles(fasta_path, max_particles, lod_targets)`.
The FASTA file has already been parsed by `read_fasta` (line-oriented I/O,
outside the core) into the ordered `(name, sequence)` list `sequences`;
the code uses the first entry.  `start_time` / `end_time` are the two
`time.time()` readings, passed explicitly so that wall-clock
nondeterminism is an explicit input; they reach only
`metadata.generation_time`.  `Except.error` models the `ValueError`
raised when no sequences were found and the `ZeroDivisionError`
propagating out of `generate_lod_levels`; `voxel_count` is
`len(spatial_hash)`, the number of distinct voxel ids inserted. -/
noncomputable def fasta_to_particles (start_time : ℝ)
    (sequences : List (String × List Char)) (max_particles : Option ℤ)
    (lod_targets : Option (List ℤ)) (end_time : ℝ) :
    Except String PipelineOutput :=
  let targets := lod_targets.getD defaultLodTargets
  match sequences with
  | [] => Except.error "No sequences found"
  | (seq_name, seq0) :: _ =>
    let seq_length := effectiveLength (seq0.length : ℤ) max_particles
    let sequence := truncSeq seq0 max_particles
    let batch_size := williams_batch_size seq_length
    let T := seq_length.toNat
    let pr := genLoop sequence T
    match generate_lod_levels pr.1 targets with
    | none => Except.error "integer division or modulo by zero"
    | some lods =>
      Except.ok {
        metadata := {
          sequence_name := seq_name
          length := seq_length
          particles := pr.1.length
          lod_levels := lods.map List.length
          voxel_count := ((List.range T).map (voxelAt sequence)).dedup.length
          voxel_size := VOXEL_SIZE
          williams_batch_size := batch_size
          generation_time := roundTo 2 (end_time - start_time)
          golden_angle_degrees := roundTo 3 (degrees GOLDEN_ANGLE)
          version := "1.0.0" }
        particles := pr.1
        spatial_hash := pr.2
        lod_levels := lods }

/-- Claim C4: the pipeline is deterministic.  The only nondeterministic
ambient input of the source (the two wall-clock readings, which reach only
`metadata.generation_time`) is an explicit argument here, and for any two
runs on the identical `(sequences, max_particles, lod_targets)` input the
particle coordinates, spatial-hash contents and LOD index tables coincide;
there is no randomness anywhere in the core computation. -/
theorem C4_pipeline_deterministic (t1 t2 t1' t2' : ℝ)
    (sequences : List (String × List Char)) (max_particles : Option ℤ)
    (lod_targets : Option (List ℤ)) :
    (fasta_to_particles t1 sequences max_particles lod_targets t2).map
        PipelineOutput.particles =
      (fasta_to_particles t1' sequences max_particles lod_targets t2').map
        PipelineOutput.particles ∧
    (fasta_to_particles t1 sequences max_particles lod_targets t2).map
        PipelineOutput.spatial_hash =
      (fasta_to_particles t1' sequences max_particles lod_targets t2').map
        PipelineOutput.spatial_hash ∧
    (fasta_to_particles t1 sequences max_particles lod_targets t2).map
        PipelineOutput.lod_levels =
      (fasta_to_particles t1' sequences max_particles lod_targets t2').map
        PipelineOutput.lod_levels := by
  cases sequences with
  | nil => exact ⟨rfl, rfl, rfl⟩
  | cons hd tl =>
    obtain ⟨seq_name, seq0⟩ := hd
    simp only [fasta_to_particles]
    cases hG : generate_lod_levels
        ((genLoop (truncSeq seq0 max_particles)
          (effectiveLength (seq0.length : ℤ) max_particles).toNat).1)
        (lod_targets.getD defaultLodTargets) with
    | none => exact ⟨rfl, rfl, rfl⟩
    | some lods => exact ⟨rfl, rfl, rfl⟩

/-- With every target nonzero, `generate_lod_levels` cannot raise. -/
lemma generate_lod_levels_total (particles : List Particle)
    (targets : List ℤ) (h : ∀ t ∈ targets, t ≠ 0) :
    ∃ l, generate_lod_levels particles targets = some l := by
  induction targets with
  | nil => exact ⟨[], rfl⟩
  | cons a ts ih =>
    obtain ⟨l, hl⟩ := ih fun t ht => h t (List.mem_cons_of_mem a ht)
    have ha : a ≠ 0 := h a (List.mem_cons_self a ts)
    have htier : ∃ la, lodTier particles.length a = some la := by
      rw [lodTier]
      by_cases hle : (particles.length : ℤ) ≤ a
      · rw [if_pos hle]
        exact ⟨_, rfl⟩
      · rw [if_neg hle, if_neg ha]
        exact ⟨_, rfl⟩
    obtain ⟨la, hla⟩ := htier
    refine ⟨la :: l, ?_⟩
    rw [generate_lod_levels] at hl ⊢
    rw [List.mapM_cons, hla]
    show (List.mapM (lodTier particles.length) ts).bind
      (fun x => some (la :: x)) = some (la :: l)
    rw [hl]
    rfl

/-- Claim C3 (as stated) is false: with a present but empty first sequence
the effective length is `T = 0`, yet the pipeline does not fail — it
returns a successful output (with zero particles) instead of raising. -/
theorem C3_counterexample_empty_sequence :
    effectiveLength (([] : List Char).length : ℤ) none = 0 ∧
    (fasta_to_particles 0 [("x", [])] none none 0).isOk = true :=
  ⟨rfl, rfl⟩

/-- Claim C3 (amended): provided every supplied LOD target is nonzero, the
pipeline fails exactly when no sequence was supplied (the source's
`ValueError`, playing the role of `EmptySequenceError`), and an error
carries no partial output; an empty-but-present sequence (`T = 0`) is not
an error; an unrecognized symbol is not an error and is mapped to the
wildcard alphabet class (index `4`).  (A zero LOD target with at least one
particle instead raises `ZeroDivisionError` — see claim C2.) -/
theorem C3_error_iff_no_sequences (t1 t2 : ℝ)
    (sequences : List (String × List Char)) (max_particles : Option ℤ)
    (lod_targets : Option (List ℤ))
    (hpos : ∀ t ∈ lod_targets.getD defaultLodTargets, t ≠ 0) :
    ((fasta_to_particles t1 sequences max_particles lod_targets t2).isOk =
        true ↔ sequences ≠ []) ∧
    (∀ k : Char, k ≠ 'A' → k ≠ 'C' → k ≠ 'G' → k ≠ 'T' →
      BASE_MAP_get k = 4) := by
  constructor
  · cases sequences with
    | nil => exact iff_of_false (fun h => nomatch h) fun h => h rfl
    | cons hd tl =>
      obtain ⟨seq_name, seq0⟩ := hd
      obtain ⟨l, hl⟩ := generate_lod_levels_total
        ((genLoop (truncSeq seq0 max_particles)
          (effectiveLength (seq0.length : ℤ) max_particles).toNat).1)
        (lod_targets.getD defaultLodTargets) hpos
      simp only [fasta_to_particles]
      rw [hl]
      exact iff_of_true rfl (List.cons_ne_nil _ _)
  · intro k h1 h2 h3 h4
    rw [BASE_MAP_get, if_neg h1, if_neg h2, if_neg h3, if_neg h4]
    split <;> rfl

/-- Witness for claim C3's amended theorem at a concrete one-base input. -/
theorem C3_error_iff_no_sequences_witness :
    (∀ t ∈ (none : Option (List ℤ)).getD defaultLodTargets, t ≠ 0) ∧
    (((fasta_to_particles 0 [("chr", ['A'])] none none 0).isOk = true ↔
      ([("chr", ['A'])] : List (String × List Char)) ≠ []) ∧
    (∀ k : Char, k ≠ 'A' → k ≠ 'C' → k ≠ 'G' → k ≠ 'T' →
      BASE_MAP_get k = 4)) :=
  ⟨by decide, C3_error_iff_no_sequences 0 0 [("chr", ['A'])] none none
    (by decide)⟩

/-- The `pos` field of the particle built at position `pos`. -/
lemma particleAt_pos (s : List Char) (i : ℕ) : (particleAt s i).pos = i := rfl

/-- The `base` field of the particle built at position `pos`. -/
lemma particleAt_base (s : List Char) (i : ℕ) :
    (particleAt s i).base = s.getD i 'N' := rfl

/-- Reading the first `n` positions of a list by index yields its prefix. -/
lemma range_map_getD (l : List Char) (n : ℕ) (h : n ≤ l.length) :
    (List.range n).map (fun i => l.getD i 'N') = l.take n := by
  apply List.ext_getElem
  · simp [Nat.min_eq_left h]
  · intro i h1 h2
    simp only [List.getElem_map, List.getElem_range, List.getElem_take]
    exact List.getD_eq_getElem l 'N' (by simp at h2; omega)

/-- The generation pass emits exactly `T` particles. -/
lemma genLoop_length (s : List Char) (T : ℕ) :
    ((genLoop s T).1).length = T := by
  rw [genLoop_fst]
  simp

/-- The `pos` fields of the emitted particles are `0, ..., T-1` in order. -/
lemma genLoop_map_pos (s : List Char) (T : ℕ) :
    ((genLoop s T).1).map Particle.pos = List.range T := by
  rw [genLoop_fst, List.map_map]
  have hc : (Particle.pos ∘ particleAt s) = fun i : ℕ => i := rfl
  rw [hc, List.map_id']

/-- The `base` fields of the emitted particles are the first `T` symbols
of the sequence in order. -/
lemma genLoop_map_base (s : List Char) (T : ℕ) (h : T ≤ s.length) :
    ((genLoop s T).1).map Particle.base = s.take T := by
  rw [genLoop_fst, List.map_map]
  have hc : (Particle.base ∘ particleAt s) = fun i : ℕ => s.getD i 'N' := rfl
  rw [hc]
  exact range_map_getD s T h

/-- Claim C5 (as stated) is false at `maxElements = 0`: Python's
`if max_particles:` treats `0` as absent, so a two-base sequence with
`max_particles = 0` yields 2 particles, not `min(2, 0) = 0`. -/
theorem C5_counterexample_zero_max :
    (∃ out, fasta_to_particles 0 [("s", ['A', 'C'])] (some 0) none 0 =
        Except.ok out ∧ out.particles.length = 2) ∧
    ¬ ((2 : ℤ) = min ((['A', 'C'] : List Char).length : ℤ) 0) := by
  constructor
  · refine ⟨_, rfl, ?_⟩
    rw [genLoop_length]
    rfl
  · decide

/-- Claim C5 (amended): for every non-empty sequence and `maxElements`
that is either absent or at least `1`, the effective length is
`T = min(length, maxElements)` (and `T = length` when `maxElements` is
absent), and the pipeline emits exactly `T` particles whose `pos` fields
are `0, ..., T-1` in order, each carrying the symbol of the sequence at
that position.  (`maxElements = 0` is treated as absent by Python
truthiness — see the counterexample.) -/
theorem C5_effective_length_particles (t1 t2 : ℝ) (seq_name : String)
    (seq0 : List Char) (rest : List (String × List Char))
    (max_particles : Option ℤ) (lod_targets : Option (List ℤ))
    (_hne : seq0 ≠ [])
    (hmp : max_particles = none ∨ ∃ m, max_particles = some m ∧ 1 ≤ m)
    (hpos : ∀ t ∈ lod_targets.getD defaultLodTargets, t ≠ 0) :
    (max_particles = none →
      effectiveLength (seq0.length : ℤ) max_particles = (seq0.length : ℤ)) ∧
    (∀ m, max_particles = some m →
      effectiveLength (seq0.length : ℤ) max_particles =
        min (seq0.length : ℤ) m) ∧
    ∃ out, fasta_to_particles t1 ((seq_name, seq0) :: rest) max_particles
        lod_targets t2 = Except.ok out ∧
      (out.particles.length : ℤ) =
        effectiveLength (seq0.length : ℤ) max_particles ∧
      out.particles.map Particle.pos =
        List.range (effectiveLength (seq0.length : ℤ) max_particles).toNat ∧
      out.particles.map Particle.base =
        seq0.take (effectiveLength (seq0.length : ℤ) max_particles).toNat := by
  have hT0 : 0 ≤ effectiveLength (seq0.length : ℤ) max_particles := by
    rcases hmp with h | ⟨m, hm, hm1⟩
    · subst h
      exact Int.natCast_nonneg _
    · subst hm
      rw [effectiveLength, if_neg (by omega)]
      exact le_min (Int.natCast_nonneg _) (by omega)
  have hTle : (effectiveLength (seq0.length : ℤ) max_particles).toNat ≤
      (truncSeq seq0 max_particles).length := by
    rcases hmp with h | ⟨m, hm, hm1⟩
    · subst h
      simp [effectiveLength, truncSeq]
    · subst hm
      rw [effectiveLength, if_neg (by omega), truncSeq, if_neg (by omega),
        pySlice, if_pos (by
          exact le_min (Int.natCast_nonneg _) (by omega))]
      simp only [List.length_take]
      omega
  have htake : (truncSeq seq0 max_particles).take
        (effectiveLength (seq0.length : ℤ) max_particles).toNat =
      seq0.take (effectiveLength (seq0.length : ℤ) max_particles).toNat := by
    rcases hmp with h | ⟨m, hm, hm1⟩
    · subst h
      rfl
    · subst hm
      rw [effectiveLength, if_neg (by omega), truncSeq, if_neg (by omega),
        pySlice, if_pos (by
          exact le_min (Int.natCast_nonneg _) (by omega))]
      rw [List.take_take, Nat.min_self]
  refine ⟨?_, ?_, ?_⟩
  · intro h
    subst h
    rfl
  · intro m hm
    rcases hmp with h | ⟨m', hm', hm1⟩
    · rw [h] at hm
      cases hm
    · rw [hm'] at hm
      injection hm with hmm
      subst hmm
      subst hm'
      rw [effectiveLength, if_neg (by omega)]
  · obtain ⟨l, hl⟩ := generate_lod_levels_total
      ((genLoop (truncSeq seq0 max_particles)
        (effectiveLength (seq0.length : ℤ) max_particles).toNat).1)
      (lod_targets.getD defaultLodTargets) hpos
    simp only [fasta_to_particles]
    rw [hl]
    refine ⟨_, rfl, ?_, ?_, ?_⟩
    · rw [genLoop_length]
      exact Int.toNat_of_nonneg hT0
    · exact genLoop_map_pos _ _
    · rw [genLoop_map_base _ _ hTle]
      exact htake

/-- Witness for claim C5's amended theorem: three bases, `maxElements = 2`. -/
theorem C5_effective_length_particles_witness :
    (['A', 'C', 'G'] : List Char) ≠ [] ∧ (1 : ℤ) ≤ 2 ∧
    ((some 2 : Option ℤ) = none →
      effectiveLength ((['A', 'C', 'G'] : List Char).length : ℤ) (some 2) =
        ((['A', 'C', 'G'] : List Char).length : ℤ)) ∧
    (∀ m, (some 2 : Option ℤ) = some m →
      effectiveLength ((['A', 'C', 'G'] : List Char).length : ℤ) (some 2) =
        min ((['A', 'C', 'G'] : List Char).length : ℤ) m) ∧
    ∃ out, fasta_to_particles 0 [("s", ['A', 'C', 'G'])] (some 2) none 0 =
        Except.ok out ∧
      (out.particles.length : ℤ) =
        effectiveLength ((['A', 'C', 'G'] : List Char).length : ℤ) (some 2) ∧
      out.particles.map Particle.pos = List.range
        (effectiveLength ((['A', 'C', 'G'] : List Char).length : ℤ)
          (some 2)).toNat ∧
      out.particles.map Particle.base = (['A', 'C', 'G'] : List Char).take
        (effectiveLength ((['A', 'C', 'G'] : List Char).length : ℤ)
          (some 2)).toNat :=
  ⟨by decide, by norm_num,
    C5_effective_length_particles 0 0 "s" ['A', 'C', 'G'] [] (some 2) none
      (by decide) (Or.inr ⟨2, rfl, by norm_num⟩) (by decide)⟩

/-- Shared bounds: all three coordinate components are in `[0, 1)`. -/
lemma sequence_to_3d_bounds (c : Char) (position : ℕ) :
    (0 ≤ (sequence_to_3d c position).1 ∧ (sequence_to_3d c position).1 < 1) ∧
    (0 ≤ (sequence_to_3d c position).2.1 ∧
      (sequence_to_3d c position).2.1 < 1) ∧
    (0 ≤ (sequence_to_3d c position).2.2 ∧
      (sequence_to_3d c position).2.2 < 1) := by
  simp only [sequence_to_3d]
  exact ⟨⟨Int.fract_nonneg _, Int.fract_lt_one _⟩,
    ⟨Int.fract_nonneg _, Int.fract_lt_one _⟩,
    ⟨Int.fract_nonneg _, Int.fract_lt_one _⟩⟩

/-- Rounding a nonnegative real to decimals stays nonnegative. -/
lemma roundTo_nonneg (n : ℕ) {x : ℝ} (h : 0 ≤ x) : 0 ≤ roundTo n x := by
  rw [roundTo]
  apply div_nonneg _ (by positivity)
  have hr : (0 : ℤ) ≤ round (x * 10 ^ n) := by
    rw [round_eq]
    refine Int.le_floor.mpr ?_
    push_cast
    positivity
  exact_mod_cast hr

/-- Truncation of a nonnegative real is nonnegative. -/
lemma pyTrunc_nonneg {r : ℝ} (h : 0 ≤ r) : 0 ≤ pyTrunc r := by
  rw [pyTrunc, if_pos h]
  exact Int.le_floor.mpr (by exact_mod_cast h)

/-- The `z` coordinate at position `9999999` is exactly `0.99999999`
(digital root `9`, drift `0.09999999`; no trigonometry is involved in
`z`). -/
lemma z_at_9999999 (c : Char) :
    (sequence_to_3d c 9999999).2.2 = 99999999 / 100000000 := by
  simp only [sequence_to_3d]
  rw [show digital_root 9999999 = 9 from by decide]
  rw [show ((9 : ℕ) : ℝ) / 10 + ((9999999 : ℕ) : ℝ) / 100000000 =
      99999999 / 100000000 by push_cast; norm_num]
  rw [Int.fract_eq_self.mpr ⟨by norm_num, by norm_num⟩]

/-- Rounding `0.99999999` to six decimal places gives exactly `1`. -/
lemma roundTo_6_z : roundTo 6 ((99999999 : ℝ) / 100000000) = 1 := by
  rw [roundTo]
  have hm : (99999999 : ℝ) / 100000000 * 10 ^ 6 = 99999999 / 100 := by
    norm_num
  rw [hm, round_eq]
  have hf : ⌊(99999999 : ℝ) / 100 + 1 / 2⌋ = 1000000 := by
    rw [Int.floor_eq_iff]
    constructor
    · push_cast
      norm_num
    · push_cast
      norm_num
  rw [hf]
  norm_num

/-- Claim C10: every emitted particle's `voxel` field is
`calculate_voxel_id` of the unrounded `sequence_to_3d` coordinates while
the stored `x, y, z` fields are those coordinates rounded to 6 decimal
places; consequently a stored coordinate can be exactly `1` (the `z`
component at position `9999999` exceeds `0.9999995`), and there the
stored `voxel` differs from `calculate_voxel_id` of the stored rounded
coordinates. -/
theorem C10_voxel_unrounded_round_mismatch :
    (∀ (s : List Char) (T : ℕ), ∀ p ∈ (genLoop s T).1,
      p.voxel = calculate_voxel_id
          (sequence_to_3d (s.getD p.pos 'N') p.pos).1
          (sequence_to_3d (s.getD p.pos 'N') p.pos).2.1
          (sequence_to_3d (s.getD p.pos 'N') p.pos).2.2 ∧
        p.x = roundTo 6 (sequence_to_3d (s.getD p.pos 'N') p.pos).1 ∧
        p.y = roundTo 6 (sequence_to_3d (s.getD p.pos 'N') p.pos).2.1 ∧
        p.z = roundTo 6 (sequence_to_3d (s.getD p.pos 'N') p.pos).2.2) ∧
    (∃ (c : Char) (position : ℕ),
      (sequence_to_3d c position).2.2 > 0.9999995 ∧
      roundTo 6 (sequence_to_3d c position).2.2 = 1 ∧
      calculate_voxel_id (sequence_to_3d c position).1
          (sequence_to_3d c position).2.1 (sequence_to_3d c position).2.2 ≠
        calculate_voxel_id (roundTo 6 (sequence_to_3d c position).1)
          (roundTo 6 (sequence_to_3d c position).2.1)
          (roundTo 6 (sequence_to_3d c position).2.2)) := by
  constructor
  · intro s T p hp
    rw [genLoop_fst] at hp
    obtain ⟨i, hi, rfl⟩ := List.mem_map.mp hp
    exact ⟨rfl, rfl, rfl, rfl⟩
  · refine ⟨'A', 9999999, ?_, ?_, ?_⟩
    · rw [z_at_9999999]
      norm_num
    · rw [z_at_9999999]
      exact roundTo_6_z
    · obtain ⟨⟨hx0, hx1⟩, ⟨hy0, hy1⟩, -⟩ := sequence_to_3d_bounds 'A' 9999999
      have hz0 : (0 : ℝ) ≤ (sequence_to_3d 'A' 9999999).2.2 := by
        rw [z_at_9999999]
        norm_num
      have hz1 : (sequence_to_3d 'A' 9999999).2.2 < 1 := by
        rw [z_at_9999999]
        norm_num
      obtain ⟨-, hlo, hhi⟩ := calculate_voxel_id_bounds hx0 hx1 hy0 hy1 hz0 hz1
      have hrz : roundTo 6 (sequence_to_3d 'A' 9999999).2.2 = 1 := by
        rw [z_at_9999999]
        exact roundTo_6_z
      have hrhs : 1000000 ≤ calculate_voxel_id
          (roundTo 6 (sequence_to_3d 'A' 9999999).1)
          (roundTo 6 (sequence_to_3d 'A' 9999999).2.1)
          (roundTo 6 (sequence_to_3d 'A' 9999999).2.2) := by
        rw [calculate_voxel_id, hrz]
        have h100 : (1 : ℝ) / VOXEL_SIZE = 100 := by
          rw [VOXEL_SIZE]
          norm_num
        have htr : pyTrunc ((1 : ℝ) / VOXEL_SIZE) = 100 := by
          rw [h100, pyTrunc, if_pos (by norm_num)]
          exact Int.floor_intCast 100
        have hxx : 0 ≤ pyTrunc (roundTo 6 (sequence_to_3d 'A' 9999999).1 /
            VOXEL_SIZE) := by
          refine pyTrunc_nonneg (div_nonneg (roundTo_nonneg 6 hx0) ?_)
          rw [VOXEL_SIZE]
          norm_num
        have hyy : 0 ≤ pyTrunc (roundTo 6 (sequence_to_3d 'A' 9999999).2.1 /
            VOXEL_SIZE) := by
          refine pyTrunc_nonneg (div_nonneg (roundTo_nonneg 6 hy0) ?_)
          rw [VOXEL_SIZE]
          norm_num
        rw [htr]
        omega
      omega

/-- Witness for claim C10's first conjunct at the one-base input `['A']`,
`T = 1`, particle at position `0`. -/
theorem C10_voxel_unrounded_round_mismatch_witness :
    particleAt ['A'] 0 ∈ (genLoop ['A'] 1).1 ∧
    ((particleAt ['A'] 0).voxel = calculate_voxel_id
        (sequence_to_3d ((['A'] : List Char).getD (particleAt ['A'] 0).pos 'N')
          (particleAt ['A'] 0).pos).1
        (sequence_to_3d ((['A'] : List Char).getD (particleAt ['A'] 0).pos 'N')
          (particleAt ['A'] 0).pos).2.1
        (sequence_to_3d ((['A'] : List Char).getD (particleAt ['A'] 0).pos 'N')
          (particleAt ['A'] 0).pos).2.2 ∧
      (particleAt ['A'] 0).x = roundTo 6
        (sequence_to_3d ((['A'] : List Char).getD (particleAt ['A'] 0).pos 'N')
          (particleAt ['A'] 0).pos).1 ∧
      (particleAt ['A'] 0).y = roundTo 6
        (sequence_to_3d ((['A'] : List Char).getD (particleAt ['A'] 0).pos 'N')
          (particleAt ['A'] 0).pos).2.1 ∧
      (particleAt ['A'] 0).z = roundTo 6
        (sequence_to_3d ((['A'] : List Char).getD (particleAt ['A'] 0).pos 'N')
          (particleAt ['A'] 0).pos).2.2) := by
  have hmem : particleAt ['A'] 0 ∈ (genLoop ['A'] 1).1 := by
    rw [genLoop_fst]
    exact List.mem_map.mpr ⟨0, by simp⟩
  exact ⟨hmem, C10_voxel_unrounded_round_mismatch.1 ['A'] 1 _ hmem⟩

end GenomeVedic
